import Mathlib

/-!
Verification of the combinatorial well-assignment / plate-layout helpers of the
BIO446_Applications Opentrons protocols.

The definitions below are shallow embeddings of the Python helper functions in
`FlexAS/pd_golden_gate_01.py`, `FlexGB/ProteinDesign/pd_golden_gate_01.py`,
`FlexGB/ProteinDesign/pd_cfps_02.py` and `FlexGB/ProteinDesign/pd_assay_01.py`.
Jagged combination matrices become `List (List Nat)`; the effectful pipetting
loops become pure functions returning the list of transfer pairs they would
perform.
-/

namespace BIO446

/-- Embedding of `calculate_total_combinations` (identical in
`FlexAS/pd_golden_gate_01.py`, `FlexGB/ProteinDesign/pd_golden_gate_01.py`,
`pd_cfps_02.py`, `pd_assay_01.py`):
`total = 1; for sublist in combinations: total *= len(sublist); return total`. -/
def calculate_total_combinations (combinations : List (List Nat)) : Nat :=
  combinations.foldl (fun total sublist => total * sublist.length) 1

/-- Embedding of Python's `itertools.product` on a list of lists of well numbers:
the leftmost input list is the slowest-varying position. -/
def itertools_product : List (List Nat) → List (List Nat)
  | [] => [[]]
  | l :: ls => l.flatMap (fun x => (itertools_product ls).map (fun rest => x :: rest))

/-- Embedding of `generate_all_combinations`:
`return list(itertools.product(*combinations))`. -/
def generate_all_combinations (combinations : List (List Nat)) : List (List Nat) :=
  itertools_product combinations

/-- The mathematical product of the slot lengths, as the spec words it. -/
def slot_length_product (combinations : List (List Nat)) : Nat :=
  (combinations.map List.length).prod

theorem calc_total_foldl_acc (combinations : List (List Nat)) (a : Nat) :
    combinations.foldl (fun total sublist => total * sublist.length) a =
      a * combinations.foldl (fun total sublist => total * sublist.length) 1 := by
  induction combinations generalizing a with
  | nil => simp
  | cons l ls ih =>
    simp only [List.foldl_cons]
    rw [ih (a * l.length), ih (1 * l.length)]
    ring

theorem calc_total_nil : calculate_total_combinations [] = 1 := rfl

theorem calc_total_cons (l : List Nat) (ls : List (List Nat)) :
    calculate_total_combinations (l :: ls) =
      l.length * calculate_total_combinations ls := by
  unfold calculate_total_combinations
  simp only [List.foldl_cons]
  rw [calc_total_foldl_acc ls (1 * l.length)]
  ring

theorem calc_total_eq_prod (combinations : List (List Nat)) :
    calculate_total_combinations combinations = slot_length_product combinations := by
  induction combinations with
  | nil => rfl
  | cons l ls ih =>
    rw [calc_total_cons, ih]
    simp [slot_length_product]

theorem itertools_product_length (ls : List (List Nat)) :
    (itertools_product ls).length = calculate_total_combinations ls := by
  induction ls with
  | nil => rfl
  | cons l ls ih =>
    rw [calc_total_cons, ← ih]
    simp only [itertools_product]
    induction l with
    | nil => simp
    | cons x xs ihx =>
      simp_all [List.flatMap_cons, Nat.succ_mul, Nat.add_comm]

/-- The combination that mixed-radix (lexicographic) enumeration places at
0-based index `i`: slot 0 contributes the most significant digit (slowest
varying), the last slot the least significant (fastest varying). -/
def mixed_radix_combination : List (List Nat) → Nat → List Nat
  | [], _ => []
  | l :: ls, i =>
    l.getD (i / calculate_total_combinations ls) 0 ::
      mixed_radix_combination ls (i % calculate_total_combinations ls)

theorem flatMap_map_cons_getD (l : List Nat) (ps : List (List Nat)) (i : Nat)
    (hi : i < l.length * ps.length) :
    (l.flatMap (fun x => ps.map (fun rest => x :: rest))).getD i [] =
      l.getD (i / ps.length) 0 :: ps.getD (i % ps.length) [] := by
  induction l generalizing i with
  | nil => simp at hi
  | cons x xs ih =>
    rw [List.flatMap_cons]
    by_cases h : i < ps.length
    · rw [List.getD_append _ _ _ _ (by simpa using h)]
      rw [Nat.div_eq_of_lt h, Nat.mod_eq_of_lt h]
      rw [List.getD_eq_getElem _ _ (by simpa using h), List.getElem_map,
        List.getD_eq_getElem _ _ h]
      rfl
    · push_neg at h
      have hcons : (x :: xs).length * ps.length = xs.length * ps.length + ps.length := by
        simp [Nat.succ_mul]
      have hps : 0 < ps.length := by
        rcases Nat.eq_zero_or_pos ps.length with h0 | h0
        · rw [h0, Nat.mul_zero] at hi
          omega
        · exact h0
      obtain ⟨j, rfl⟩ : ∃ j, i = j + ps.length := ⟨i - ps.length, by omega⟩
      rw [List.getD_append_right _ _ _ _ (by simp [h]), List.length_map,
        Nat.add_sub_cancel]
      have hj : j < xs.length * ps.length := by omega
      rw [ih _ hj, Nat.add_div_right _ hps, Nat.add_mod_right, List.getD_cons_succ]

theorem itertools_product_getD (ls : List (List Nat)) (i : Nat)
    (hi : i < calculate_total_combinations ls) :
    (itertools_product ls).getD i [] = mixed_radix_combination ls i := by
  induction ls generalizing i with
  | nil =>
    have : i = 0 := by
      simpa [calculate_total_combinations] using hi
    subst this
    rfl
  | cons l ls ih =>
    rw [calc_total_cons] at hi
    have hm : 0 < calculate_total_combinations ls := by
      rcases Nat.eq_zero_or_pos (calculate_total_combinations ls) with h0 | h0
      · rw [h0, Nat.mul_zero] at hi
        omega
      · exact h0
    show (l.flatMap (fun x => (itertools_product ls).map (fun rest => x :: rest))).getD i [] =
      l.getD (i / calculate_total_combinations ls) 0 ::
        mixed_radix_combination ls (i % calculate_total_combinations ls)
    rw [flatMap_map_cons_getD l (itertools_product ls) i
      (by rwa [itertools_product_length])]
    rw [itertools_product_length]
    congr 1
    exact ih _ (Nat.mod_lt _ hm)

/-- The inline ceiling division `(total_combinations + 7) // 8` that appears in
`calculate_internal_standards_column` (pd_cfps_02.py), `transfer_pcr_products`
(pd_cfps_02.py) and `calculate_reaction_plate_layout` (pd_assay_01.py); the spec
calls it `columns_needed` with `wells_per_column = 8`. -/
def columns_needed (total : Nat) : Nat :=
  (total + 7) / 8

/-- Embedding of `calculate_internal_standards_column` (pd_cfps_02.py): returns
`(internal_standards_column, total_combinations)` where
`columns_needed = (total + 7) // 8` and the standards column is
`columns_needed + 1`. -/
def calculate_internal_standards_column (combinations : List (List Nat)) : Nat × Nat :=
  let total_combinations := calculate_total_combinations combinations
  let cols := (total_combinations + 7) / 8
  (cols + 1, total_combinations)

/-- Embedding of `calculate_reaction_plate_layout` (pd_assay_01.py): returns
`(total_combinations, columns_needed, extra_column_number)` with
`extra_column_number = reaction_plate_first_column + columns_needed`. -/
def calculate_reaction_plate_layout (reaction_plate_first_column : Nat)
    (combinations : List (List Nat)) : Nat × Nat × Nat :=
  let total_combinations := calculate_total_combinations combinations
  let cols := (total_combinations + 7) / 8
  (total_combinations, cols, reaction_plate_first_column + cols)

/-- Embedding of the per-destination loop of `add_master_mix_to_combinations`
(FlexAS/pd_golden_gate_01.py).  State: destination wells left to serve,
current 1-indexed destination number, current 0-indexed master-mix well, and
`remaining_dispenses` (an integer, as in Python).  Each iteration first switches
to the next master-mix well when `remaining_dispenses == 0` (resetting it to
`dispenses_per_well`), then records the transfer pair
`(dest_well_number, master_mix_well)` and decrements the remaining count. -/
def master_mix_loop (dispenses_per_well : Nat) :
    Nat → Nat → Nat → Int → List (Nat × Nat)
  | 0, _, _, _ => []
  | k + 1, dest_well_number, current_well, remaining =>
    if remaining = 0 then
      (dest_well_number, current_well + 1) ::
        master_mix_loop dispenses_per_well k (dest_well_number + 1) (current_well + 1)
          ((dispenses_per_well : Int) - 1)
    else
      (dest_well_number, current_well) ::
        master_mix_loop dispenses_per_well k (dest_well_number + 1) current_well
          (remaining - 1)

/-- Embedding of `add_master_mix_to_combinations` (FlexAS/pd_golden_gate_01.py)
as the list of transfer pairs it performs:
`(dest_well_number (1-indexed), master_mix_well (0-indexed))`.
`dispenses_per_well = master_mix_well_volume // master_mix_volume`, the start
well is converted to 0-indexed, and `remaining_dispenses` starts at
`dispenses_per_well`. -/
def add_master_mix_to_combinations (combinations : List (List Nat))
    (master_mix_volume master_mix_well_volume master_mix_start_well : Nat) :
    List (Nat × Nat) :=
  let start := master_mix_start_well - 1
  let total_combinations := calculate_total_combinations combinations
  let dispenses_per_well := master_mix_well_volume / master_mix_volume
  master_mix_loop dispenses_per_well total_combinations 1 start
    (dispenses_per_well : Int)

/-- Embedding of the column loop of `transfer_pcr_products` (pd_cfps_02.py):
`for col_idx in range(columns_needed): if col_idx >= len(template_cols): break;
transfer(source column col_idx -> reaction column template_cols[col_idx])`.
Returns the performed `(source_col_idx, template_col_idx)` pairs (0-indexed). -/
def transfer_pcr_loop (template_cols : List Nat) : Nat → Nat → List (Nat × Nat)
  | _, 0 => []
  | col_idx, k + 1 =>
    if h : col_idx < template_cols.length then
      (col_idx, template_cols.get ⟨col_idx, h⟩) ::
        transfer_pcr_loop template_cols (col_idx + 1) k
    else
      []

/-- Embedding of `transfer_pcr_products` (pd_cfps_02.py): template columns are
converted to 0-indexed, `columns_needed = (total + 7) // 8`, then the column
loop runs. -/
def transfer_pcr_products (combinations : List (List Nat))
    (template_columns : List Nat) : List (Nat × Nat) :=
  let template_cols := template_columns.map (fun c => c - 1)
  let total_combinations := calculate_total_combinations combinations
  let cols := (total_combinations + 7) / 8
  transfer_pcr_loop template_cols 0 cols

theorem calc_total_eq_zero_of_empty_mem (combinations : List (List Nat))
    (h : ∃ l ∈ combinations, l = []) :
    calculate_total_combinations combinations = 0 := by
  induction combinations with
  | nil => simp at h
  | cons l ls ih =>
    rw [calc_total_cons]
    rcases h with ⟨l', hl', he⟩
    rcases List.mem_cons.mp hl' with h1 | h1
    · subst h1
      subst he
      simp
    · rw [ih ⟨l', h1, he⟩]
      simp

theorem calc_total_pos_of_all_nonempty (combinations : List (List Nat))
    (h : ∀ l ∈ combinations, l ≠ []) :
    1 ≤ calculate_total_combinations combinations := by
  induction combinations with
  | nil => simp [calculate_total_combinations]
  | cons l ls ih =>
    rw [calc_total_cons]
    have h1 : l ≠ [] := h l (List.mem_cons_self l ls)
    have h2 : 1 ≤ l.length := List.length_pos.mpr h1
    have h3 : 1 ≤ calculate_total_combinations ls :=
      ih (fun l' hl' => h l' (List.mem_cons_of_mem l hl'))
    exact Nat.one_le_iff_ne_zero.mpr (Nat.mul_ne_zero (by omega) (by omega))

theorem product_eq_nil_of_empty_mem (combinations : List (List Nat))
    (h : ∃ l ∈ combinations, l = []) :
    generate_all_combinations combinations = [] := by
  have hlen := itertools_product_length combinations
  rw [calc_total_eq_zero_of_empty_mem combinations h] at hlen
  exact List.length_eq_zero.mp hlen

theorem master_mix_loop_closed_form (dpw : Nat) (hdpw : 0 < dpw) :
    ∀ (k dest well s : Nat), s ≤ dpw →
      master_mix_loop dpw k dest well ((dpw : Int) - (s : Int)) =
        (List.range k).map (fun j => (dest + j, well + (s + j) / dpw)) := by
  intro k
  induction k with
  | zero =>
    intro dest well s hs
    rfl
  | succ k ih =>
    intro dest well s hs
    by_cases hcase : dpw = s
    · subst hcase
      simp only [master_mix_loop]
      rw [if_pos (by ring)]
      have h1 : (dpw : Int) - 1 = (dpw : Int) - ((1 : Nat) : Int) := by norm_num
      rw [h1, ih (dest + 1) (well + 1) 1 hdpw]
      rw [List.range_succ_eq_map]
      simp only [List.map_cons, List.map_map]
      congr 1
      · simp [Nat.div_self hdpw]
      · apply List.map_congr_left
        intro j hj
        simp only [Function.comp, Nat.succ_eq_add_one, Prod.mk.injEq]
        constructor
        · omega
        · rw [Nat.add_comm dpw (j + 1), Nat.add_div_right _ hdpw]
          have hc : 1 + j = j + 1 := by omega
          rw [hc]
          generalize (j + 1) / dpw = q
          omega
    · have hlt : s < dpw := by omega
      simp only [master_mix_loop]
      rw [if_neg (by omega)]
      have h1 : (dpw : Int) - (s : Int) - 1 = (dpw : Int) - ((s + 1 : Nat) : Int) := by
        push_cast
        ring
      rw [h1, ih (dest + 1) well (s + 1) (by omega)]
      rw [List.range_succ_eq_map]
      simp only [List.map_cons, List.map_map]
      congr 1
      · simp [Nat.div_eq_of_lt hlt]
      · apply List.map_congr_left
        intro j hj
        simp only [Function.comp, Nat.succ_eq_add_one, Prod.mk.injEq]
        constructor
        · omega
        · have hc : s + (j + 1) = s + 1 + j := by omega
          rw [hc]

theorem add_master_mix_closed_form (combinations : List (List Nat))
    (master_mix_volume master_mix_well_volume master_mix_start_well : Nat)
    (hdpw : 0 < master_mix_well_volume / master_mix_volume) :
    add_master_mix_to_combinations combinations master_mix_volume
        master_mix_well_volume master_mix_start_well =
      (List.range (calculate_total_combinations combinations)).map
        (fun j => (j + 1, (master_mix_start_well - 1) +
          j / (master_mix_well_volume / master_mix_volume))) := by
  show master_mix_loop (master_mix_well_volume / master_mix_volume)
      (calculate_total_combinations combinations) 1 (master_mix_start_well - 1)
      ((master_mix_well_volume / master_mix_volume : Nat) : Int) = _
  have h0 : ((master_mix_well_volume / master_mix_volume : Nat) : Int) =
      ((master_mix_well_volume / master_mix_volume : Nat) : Int) - ((0 : Nat) : Int) := by
    norm_num
  rw [h0, master_mix_loop_closed_form _ hdpw _ _ _ 0 (by omega)]
  apply List.map_congr_left
  intro j hj
  simp [Nat.add_comm, Nat.zero_add]

theorem countP_div_window (d s w n : Nat) (hd : 0 < d) :
    (List.range n).countP (fun j => s + j / d = w) ≤ d := by
  classical
  have hnodup : ((List.range n).filter (fun j => decide (s + j / d = w))).Nodup :=
    (List.nodup_range n).filter _
  have hsub : ((List.range n).filter (fun j => decide (s + j / d = w))).toFinset ⊆
      Finset.Ico ((w - s) * d) ((w - s) * d + d) := by
    intro j hj
    have hj' := List.mem_toFinset.mp hj
    have hp : s + j / d = w := by simpa using List.of_mem_filter hj'
    have h1 := Nat.div_add_mod j d
    have h2 : j % d < d := Nat.mod_lt _ hd
    have h3 : j / d = w - s := by
      rw [← hp, Nat.add_sub_cancel_left]
    rw [Finset.mem_Ico]
    constructor
    · calc (w - s) * d = j / d * d := by rw [h3]
        _ ≤ j := Nat.div_mul_le_self j d
    · calc j = d * (j / d) + j % d := (Nat.div_add_mod j d).symm
        _ < d * (j / d) + d := by omega
        _ = (j / d + 1) * d := by ring
        _ = (w - s) * d + d := by rw [h3, Nat.succ_mul]
  calc (List.range n).countP (fun j => s + j / d = w)
      = ((List.range n).filter (fun j => decide (s + j / d = w))).length :=
        List.countP_eq_length_filter _ _
    _ = ((List.range n).filter (fun j => decide (s + j / d = w))).toFinset.card :=
        (List.toFinset_card_of_nodup hnodup).symm
    _ ≤ (Finset.Ico ((w - s) * d) ((w - s) * d + d)).card := Finset.card_le_card hsub
    _ = d := by rw [Nat.card_Ico, Nat.add_sub_cancel_left]

theorem transfer_pcr_loop_length (template_cols : List Nat) :
    ∀ (k col_idx : Nat),
      (transfer_pcr_loop template_cols col_idx k).length =
        min k (template_cols.length - col_idx) := by
  intro k
  induction k with
  | zero =>
    intro col_idx
    simp [transfer_pcr_loop]
  | succ k ih =>
    intro col_idx
    simp only [transfer_pcr_loop]
    by_cases h : col_idx < template_cols.length
    · rw [dif_pos h]
      simp only [List.length_cons, ih (col_idx + 1)]
      omega
    · rw [dif_neg h]
      simp only [List.length_nil]
      omega

theorem transfer_pcr_loop_mem (template_cols : List Nat) :
    ∀ (k col_idx : Nat) (p : Nat × Nat),
      p ∈ transfer_pcr_loop template_cols col_idx k →
      p.1 < template_cols.length ∧ p.2 ∈ template_cols := by
  intro k
  induction k with
  | zero =>
    intro col_idx p hp
    simp [transfer_pcr_loop] at hp
  | succ k ih =>
    intro col_idx p hp
    simp only [transfer_pcr_loop] at hp
    by_cases h : col_idx < template_cols.length
    · rw [dif_pos h] at hp
      rcases List.mem_cons.mp hp with h1 | h1
      · subst h1
        exact ⟨h, List.get_mem ..⟩
      · exact ih (col_idx + 1) p h1
    · rw [dif_neg h] at hp
      simp at hp

/-- C1: for every jagged list of slots in which every slot is non-empty,
`calculate_total_combinations` returns the arithmetic product of the slot
lengths, and the length of `generate_all_combinations` on the same input equals
that same product; for the example spec `[[2,18],[3,19],[4,20],[5,21]]` both
values are 16. -/
theorem c1_total_and_length_eq_product :
    (∀ combinations : List (List Nat), (∀ l ∈ combinations, l ≠ []) →
        calculate_total_combinations combinations = slot_length_product combinations ∧
        (generate_all_combinations combinations).length =
          slot_length_product combinations) ∧
    calculate_total_combinations [[2,18],[3,19],[4,20],[5,21]] = 16 ∧
    (generate_all_combinations [[2,18],[3,19],[4,20],[5,21]]).length = 16 := by
  refine ⟨fun combinations _ => ⟨calc_total_eq_prod combinations, ?_⟩, by decide, by decide⟩
  rw [show generate_all_combinations combinations = itertools_product combinations from rfl,
    itertools_product_length, calc_total_eq_prod]

theorem c1_witness :
    calculate_total_combinations [[5],[6,7]] = slot_length_product [[5],[6,7]] ∧
    (generate_all_combinations [[5],[6,7]]).length = slot_length_product [[5],[6,7]] :=
  c1_total_and_length_eq_product.1 [[5],[6,7]] (by decide)

/-- C2: `generate_all_combinations` returns the full Cartesian product in
lexicographic order with slot 0 slowest-varying and the last slot
fastest-varying: the combination at 0-based index `i` is the mixed-radix
decomposition of `i` (most significant digit = slot 0), there is one tuple per
combination, and on `[[2,18],[3,19],[4,20],[5,21]]` the first tuple is
`[2,3,4,5]` and the last is `[18,19,20,21]`. -/
theorem c2_lexicographic_enumeration :
    (∀ (combinations : List (List Nat)) (i : Nat),
        i < calculate_total_combinations combinations →
        (generate_all_combinations combinations).getD i [] =
          mixed_radix_combination combinations i) ∧
    (∀ combinations : List (List Nat),
        (generate_all_combinations combinations).length =
          calculate_total_combinations combinations) ∧
    (generate_all_combinations [[2,18],[3,19],[4,20],[5,21]]).head? = some [2,3,4,5] ∧
    (generate_all_combinations [[2,18],[3,19],[4,20],[5,21]]).getLast? =
      some [18,19,20,21] := by
  exact ⟨fun c i hi => itertools_product_getD c i hi,
    fun c => itertools_product_length c, by decide, by decide⟩

theorem c2_witness :
    (generate_all_combinations [[2,18],[3,19],[4,20],[5,21]]).getD 5 [] =
      mixed_radix_combination [[2,18],[3,19],[4,20],[5,21]] 5 :=
  c2_lexicographic_enumeration.1 [[2,18],[3,19],[4,20],[5,21]] 5 (by decide)

/-- C3 counterexample: on a spec containing an empty slot the code does NOT
fail with any error: `calculate_total_combinations` silently returns 0 (not a
positive integer), the enumeration proceeds and returns `[]`, and the column
arithmetic of `calculate_internal_standards_column` proceeds, yielding
`(1, 0)`. -/
theorem c3_counterexample :
    calculate_total_combinations [[2,18],[],[4,20]] = 0 ∧
    generate_all_combinations [[2,18],[],[4,20]] = [] ∧
    calculate_internal_standards_column [[2,18],[],[4,20]] = (1, 0) := by
  exact ⟨by decide, by decide, by decide⟩

/-- C3 (amended): no `InvalidSpec` error is raised anywhere: for a spec with an
empty slot `calculate_total_combinations` silently returns 0 and
`generate_all_combinations` returns `[]`, and enumeration/column arithmetic
proceed; for a spec whose slots are all non-empty the total combination count
is a positive integer ≥ 1. -/
theorem c3_amended_no_invalid_spec_error :
    (∀ combinations : List (List Nat), (∃ l ∈ combinations, l = []) →
        calculate_total_combinations combinations = 0 ∧
        generate_all_combinations combinations = []) ∧
    (∀ combinations : List (List Nat), (∀ l ∈ combinations, l ≠ []) →
        1 ≤ calculate_total_combinations combinations) :=
  ⟨fun c h => ⟨calc_total_eq_zero_of_empty_mem c h, product_eq_nil_of_empty_mem c h⟩,
    fun c h => calc_total_pos_of_all_nonempty c h⟩

theorem c3_witness :
    (calculate_total_combinations [[1],[]] = 0 ∧
      generate_all_combinations [[1],[]] = []) ∧
    1 ≤ calculate_total_combinations [[1],[2]] :=
  ⟨c3_amended_no_invalid_spec_error.1 [[1],[]] (by decide),
    c3_amended_no_invalid_spec_error.2 [[1],[2]] (by decide)⟩

/-- C4: the inline `(total + 7) // 8` used by `calculate_internal_standards_column`
and `calculate_reaction_plate_layout` is exactly ceiling division by 8: for
every positive total it is the least `c` with `total ≤ 8 * c` (so an exact
multiple of 8 gets no spurious extra trailing column), with
`columns_needed 24 = 3`, `columns_needed 25 = 4`, `columns_needed 16 = 2`. -/
theorem c4_columns_needed_is_ceiling :
    (∀ total : Nat, 0 < total →
        total ≤ 8 * columns_needed total ∧
        (∀ c : Nat, total ≤ 8 * c → columns_needed total ≤ c)) ∧
    columns_needed 24 = 3 ∧ columns_needed 25 = 4 ∧ columns_needed 16 = 2 ∧
    (∀ combinations : List (List Nat),
        (calculate_internal_standards_column combinations).1 =
          columns_needed (calculate_total_combinations combinations) + 1) ∧
    (∀ (first_column : Nat) (combinations : List (List Nat)),
        (calculate_reaction_plate_layout first_column combinations).2.1 =
          columns_needed (calculate_total_combinations combinations)) := by
  refine ⟨?_, by decide, by decide, by decide, fun c => rfl, fun f c => rfl⟩
  intro total ht
  unfold columns_needed
  exact ⟨by omega, fun c hc => by omega⟩

theorem c4_witness :
    (24 ≤ 8 * columns_needed 24 ∧ columns_needed 24 ≤ 3) ∧
    16 ≤ 8 * columns_needed 16 ∧ columns_needed 16 ≤ 2 :=
  ⟨⟨(c4_columns_needed_is_ceiling.1 24 (by decide)).1,
      (c4_columns_needed_is_ceiling.1 24 (by decide)).2 3 (by decide)⟩,
    (c4_columns_needed_is_ceiling.1 16 (by decide)).1,
    (c4_columns_needed_is_ceiling.1 16 (by decide)).2 2 (by decide)⟩

/-- C5: the extra column for standards/controls is placed immediately after the
last combination column: `calculate_reaction_plate_layout` returns
`extra_column_number = first_column + columns_needed`,
`calculate_internal_standards_column` returns `1 + columns_needed` (its first
column is 1), and on a spec with 24 combinations and first column 1 the extra
column is `1 + 3 = 4`. -/
theorem c5_extra_column_after_last :
    (∀ (first_column : Nat) (combinations : List (List Nat)),
        (calculate_reaction_plate_layout first_column combinations).2.2 =
          first_column +
            (calculate_reaction_plate_layout first_column combinations).2.1) ∧
    (∀ combinations : List (List Nat),
        (calculate_internal_standards_column combinations).1 =
          1 + columns_needed (calculate_total_combinations combinations)) ∧
    (calculate_reaction_plate_layout 1 [[1,2],[3,4],[5,6],[7,8,9]]).2.1 = 3 ∧
    (calculate_reaction_plate_layout 1 [[1,2],[3,4],[5,6],[7,8,9]]).2.2 = 4 := by
  refine ⟨fun f c => rfl, fun c => ?_, by decide, by decide⟩
  show columns_needed (calculate_total_combinations c) + 1 = _
  omega

/-- C6: the master-mix rotation serves destination wells 1..total from
consecutive reservoir wells starting at the configured start well: destination
`j + 1` draws from well `start + j / dispenses_per_well` where
`dispenses_per_well = well_volume // dispense_volume`, each reservoir well
serving exactly `dispenses_per_well` destinations before rolling over; the
number of wells consumed (`last used well - start + 1`) is the ceiling of
`total / dispenses_per_well`; for dispense volume 12, well volume 100 and 20
destinations: `dispenses_per_well = 8`, 3 reservoir wells are consumed and the
last well serves only 4 destinations. -/
theorem c6_master_mix_rotation :
    (∀ (combinations : List (List Nat))
        (master_mix_volume master_mix_well_volume master_mix_start_well : Nat),
        0 < master_mix_well_volume / master_mix_volume →
        add_master_mix_to_combinations combinations master_mix_volume
            master_mix_well_volume master_mix_start_well =
          (List.range (calculate_total_combinations combinations)).map
            (fun j => (j + 1, (master_mix_start_well - 1) +
              j / (master_mix_well_volume / master_mix_volume)))) ∧
    (∀ (combinations : List (List Nat))
        (master_mix_volume master_mix_well_volume master_mix_start_well : Nat),
        0 < master_mix_well_volume / master_mix_volume →
        0 < calculate_total_combinations combinations →
        (add_master_mix_to_combinations combinations master_mix_volume
            master_mix_well_volume master_mix_start_well).getD
            (calculate_total_combinations combinations - 1) (0, 0) =
          (calculate_total_combinations combinations,
            (master_mix_start_well - 1) +
              (calculate_total_combinations combinations - 1) /
                (master_mix_well_volume / master_mix_volume)) ∧
        (calculate_total_combinations combinations - 1) /
              (master_mix_well_volume / master_mix_volume) + 1 =
          (calculate_total_combinations combinations +
              (master_mix_well_volume / master_mix_volume) - 1) /
            (master_mix_well_volume / master_mix_volume)) ∧
    100 / 12 = 8 ∧
    ((add_master_mix_to_combinations [List.range' 1 20] 12 100 33).map
        Prod.snd).dedup.length = 3 ∧
    ((add_master_mix_to_combinations [List.range' 1 20] 12 100 33).filter
        (fun p => p.2 = 34)).length = 4 := by
  refine ⟨fun c v wv sw h => add_master_mix_closed_form c v wv sw h,
    ?_, by decide, by decide, by decide⟩
  intro c v wv sw h ht
  constructor
  · rw [add_master_mix_closed_form c v wv sw h]
    rw [List.getD_eq_getElem _ _ (by rw [List.length_map, List.length_range]; omega)]
    rw [List.getElem_map, List.getElem_range]
    have hc : calculate_total_combinations c - 1 + 1 = calculate_total_combinations c := by
      omega
    rw [hc]
  · obtain ⟨t, htt⟩ : ∃ t, calculate_total_combinations c = t + 1 :=
      ⟨calculate_total_combinations c - 1, by omega⟩
    rw [htt]
    simp only [Nat.add_sub_cancel]
    have he : t + 1 + wv / v - 1 = t + wv / v := by omega
    rw [he, Nat.add_div_right _ h]

theorem c6_witness :
    add_master_mix_to_combinations [[1,2]] 12 100 33 =
      (List.range (calculate_total_combinations [[1,2]])).map
        (fun j => (j + 1, (33 - 1) + j / (100 / 12))) :=
  c6_master_mix_rotation.1 [[1,2]] 12 100 33 (by decide)

/-- C7: the rotation never over-draws a reservoir well: for any positive
dispense volume not exceeding the declared usable well volume, the number of
dispenses any single well `w` receives times the dispense volume is at most
the declared well volume. -/
theorem c7_no_reservoir_overdraw :
    ∀ (combinations : List (List Nat))
      (master_mix_volume master_mix_well_volume master_mix_start_well w : Nat),
      0 < master_mix_volume → master_mix_volume ≤ master_mix_well_volume →
      ((add_master_mix_to_combinations combinations master_mix_volume
          master_mix_well_volume master_mix_start_well).filter
        (fun p => p.2 = w)).length * master_mix_volume ≤ master_mix_well_volume := by
  intro c v wv sw w hv hle
  have hdpw : 0 < wv / v := Nat.div_pos hle hv
  rw [add_master_mix_closed_form c v wv sw hdpw]
  have h1 : (((List.range (calculate_total_combinations c)).map
      (fun j => (j + 1, (sw - 1) + j / (wv / v)))).filter
        (fun p => p.2 = w)).length =
      (List.range (calculate_total_combinations c)).countP
        (fun j => (sw - 1) + j / (wv / v) = w) := by
    rw [← List.countP_eq_length_filter, List.countP_map]
    rfl
  rw [h1]
  exact le_trans
    (Nat.mul_le_mul_right v (countP_div_window (wv / v) (sw - 1) w _ hdpw))
    (Nat.div_mul_le_self wv v)

theorem c7_witness :
    ((add_master_mix_to_combinations [[1,2],[3,4]] 12 100 33).filter
      (fun p => p.2 = 32)).length * 12 ≤ 100 :=
  c7_no_reservoir_overdraw [[1,2],[3,4]] 12 100 33 32 (by decide) (by decide)

/-- C8: enumeration is deterministic: both `generate_all_combinations` and
`calculate_total_combinations` are pure functions of their input, so two
invocations on equal inputs produce identical ordered output, and the
destination-index assignment (position in the output list) is identical
run-to-run. -/
theorem c8_enumeration_deterministic :
    ∀ (combinations1 combinations2 : List (List Nat)),
      combinations1 = combinations2 →
      generate_all_combinations combinations1 = generate_all_combinations combinations2 ∧
      calculate_total_combinations combinations1 =
        calculate_total_combinations combinations2 ∧
      ∀ i : Nat, (generate_all_combinations combinations1).getD i [] =
        (generate_all_combinations combinations2).getD i [] := by
  intro c1 c2 h
  subst h
  exact ⟨rfl, rfl, fun i => rfl⟩

theorem c8_witness :
    generate_all_combinations [[2,18],[3,19]] = generate_all_combinations [[2,18],[3,19]] ∧
    calculate_total_combinations [[2,18],[3,19]] =
      calculate_total_combinations [[2,18],[3,19]] ∧
    ∀ i : Nat, (generate_all_combinations [[2,18],[3,19]]).getD i [] =
      (generate_all_combinations [[2,18],[3,19]]).getD i [] :=
  c8_enumeration_deterministic [[2,18],[3,19]] [[2,18],[3,19]] rfl

/-- C9: for every jagged list containing at least one empty sublist,
`calculate_total_combinations` returns 0 and `generate_all_combinations`
returns `[]` (no error is raised: both are total functions), and the equality
`calculate_total_combinations spec = (generate_all_combinations spec).length`
holds for every jagged list, empty sublists included. -/
theorem c9_empty_sublist_zero_and_nil :
    (∀ combinations : List (List Nat), (∃ l ∈ combinations, l = []) →
        calculate_total_combinations combinations = 0 ∧
        generate_all_combinations combinations = []) ∧
    (∀ combinations : List (List Nat),
        calculate_total_combinations combinations =
          (generate_all_combinations combinations).length) :=
  ⟨fun c h => ⟨calc_total_eq_zero_of_empty_mem c h, product_eq_nil_of_empty_mem c h⟩,
    fun c => (itertools_product_length c).symm⟩

theorem c9_witness :
    calculate_total_combinations [[1],[],[3]] = 0 ∧
    generate_all_combinations [[1],[],[3]] = [] :=
  c9_empty_sublist_zero_and_nil.1 [[1],[],[3]] (by decide)

/-- C10: `transfer_pcr_products` performs exactly
`min (columns_needed, number of template columns)` column transfers: when the
ceiling-divided column count exceeds the template-column list, the loop stops
after the last configured template column, and every performed transfer targets
a column from the configured (0-indexed) template-column list. -/
theorem c10_transfer_bounded_by_template_columns :
    (∀ (combinations : List (List Nat)) (template_columns : List Nat),
        (transfer_pcr_products combinations template_columns).length =
          min (columns_needed (calculate_total_combinations combinations))
            template_columns.length) ∧
    (∀ (combinations : List (List Nat)) (template_columns : List Nat)
        (p : Nat × Nat),
        p ∈ transfer_pcr_products combinations template_columns →
        p.1 < template_columns.length ∧
        p.2 ∈ template_columns.map (fun c => c - 1)) := by
  constructor
  · intro c tc
    show (transfer_pcr_loop (tc.map (fun x => x - 1)) 0
        ((calculate_total_combinations c + 7) / 8)).length = _
    rw [transfer_pcr_loop_length, List.length_map, Nat.sub_zero]
    rfl
  · intro c tc p hp
    have hm := transfer_pcr_loop_mem (tc.map (fun x => x - 1))
      ((calculate_total_combinations c + 7) / 8) 0 p hp
    constructor
    · have h := hm.1
      rwa [List.length_map] at h
    · exact hm.2

theorem c10_witness :
    ((0, 6) : Nat × Nat).1 < ([7, 8] : List Nat).length ∧
    ((0, 6) : Nat × Nat).2 ∈ ([7, 8] : List Nat).map (fun c => c - 1) :=
  c10_transfer_bounded_by_template_columns.2 [[2,18],[3,19],[4,20],[5,21]]
    [7, 8] (0, 6) (by decide)

end BIO446
